import Mathlib

/-!
Verification of the session/request layer of the searu dashboard
(`src/searu-dash/src/lib/api.ts`, `src/searu-dash/src/routes/users/login.ts`,
and the SvelteKit session hook `getSession`).

The embedding models the JavaScript values that flow through this layer:
JSON values, JS truthiness, template-literal string conversion,
`JSON.stringify` / `JSON.parse` (numbers are modelled as integers: no claim
exercises fractional or exponent literals, and floating point is outside the
embedding), the npm `cookie` package's `parse` (percent-decoding is omitted:
the library only attempts it when a value contains a percent sign, and no
input in this development does), and Node's forgiving Base64 / UTF-8 codecs
used by `Buffer.from(v, "base64").toString("utf-8")`.
-/

namespace Searu

/-- JSON values as produced by `JSON.parse`. Object fields keep their textual
order (duplicates allowed, lookup takes the last occurrence, as `JSON.parse`
does). Numbers are modelled as integers. -/
inductive Json where
  | null
  | bool (b : Bool)
  | num (n : Int)
  | str (s : String)
  | arr (elems : List Json)
  | obj (fields : List (String × Json))

/-- JS truthiness of a JSON value: `false`, `0`, the empty string and `null`
are falsy; every array and object is truthy. Models the `if (data)` test in
`api.ts`. -/
def jsTruthy : Json → Bool
  | .null => false
  | .bool b => b
  | .num n => n != 0
  | .str s => s != ""
  | .arr _ => true
  | .obj _ => true

/-- JS truthiness of an optional string: `undefined` and the empty string are
falsy. Models the `if (token)` test in `api.ts`. -/
def jsTruthyStr : Option String → Bool
  | none => false
  | some s => s != ""

mutual
/-- JS string conversion of a JSON value, as a template literal `${v}` performs
it: strings pass through raw, arrays join their elements with commas, plain
objects print as `[object Object]`. -/
def jsToString : Json → String
  | .null => "null"
  | .bool true => "true"
  | .bool false => "false"
  | .num n => toString n
  | .str s => s
  | .arr l => jsToStringElems l
  | .obj _ => "[object Object]"

/-- Comma-joined JS string conversion of array elements (`Array.prototype.join`). -/
def jsToStringElems : List Json → String
  | [] => ""
  | [x] => jsToString x
  | x :: xs => jsToString x ++ "," ++ jsToStringElems xs
end

/-- Hex digit for a value below 16, lower case as `JSON.stringify` emits it. -/
def hexDigit (n : Nat) : Char :=
  "0123456789abcdef".data.getD n '0'

/-- Escape of one character inside a `JSON.stringify` string literal. -/
def jsonEscapeChar (c : Char) : String :=
  if c = '"' then "\\\""
  else if c = '\\' then "\\\\"
  else if c = '\n' then "\\n"
  else if c = '\r' then "\\r"
  else if c = '\t' then "\\t"
  else if c.toNat = 8 then "\\b"
  else if c.toNat = 12 then "\\f"
  else if c.toNat < 32 then
    "\\u00" ++ String.mk [hexDigit (c.toNat / 16), hexDigit (c.toNat % 16)]
  else String.mk [c]

/-- JSON string literal for `s`: surrounding quotes plus per-character escapes. -/
def jsonStrLit (s : String) : String :=
  "\"" ++ String.join (s.data.map jsonEscapeChar) ++ "\""

mutual
/-- Serialization of a JSON value, as `JSON.stringify` performs it (no spacing
argument): object fields in order, strings escaped. -/
def jsonStringify : Json → String
  | .null => "null"
  | .bool true => "true"
  | .bool false => "false"
  | .num n => toString n
  | .str s => jsonStrLit s
  | .arr l => "[" ++ jsonStringifyElems l ++ "]"
  | .obj fl => "\x7b" ++ jsonStringifyFields fl ++ "\x7d"

/-- Comma-joined serialization of array elements. -/
def jsonStringifyElems : List Json → String
  | [] => ""
  | [x] => jsonStringify x
  | x :: xs => jsonStringify x ++ "," ++ jsonStringifyElems xs

/-- Comma-joined serialization of object fields. -/
def jsonStringifyFields : List (String × Json) → String
  | [] => ""
  | [(k, v)] => jsonStrLit k ++ ":" ++ jsonStringify v
  | (k, v) :: xs => jsonStrLit k ++ ":" ++ jsonStringify v ++ "," ++ jsonStringifyFields xs
end

/-- Field lookup on a parsed JSON object: the last occurrence of the key wins,
matching the JS object `JSON.parse` builds from duplicate keys. -/
def jsonObjGet (fields : List (String × Json)) (k : String) : Option Json :=
  (fields.reverse.find? (fun p => p.1 == k)).map (fun p => p.2)

/-! ### The `JSON.parse` model

A total recursive-descent parser over the character list, following the JSON
grammar that `JSON.parse` accepts: whitespace-insensitive, exact literals,
escaped strings, arrays, objects, and numbers restricted to the integer part
of the grammar (leading-zero rule included). Nesting recursion is paid for
with a fuel counter; the top-level entry supplies one unit per input
character, which covers any nesting the input can spell. -/

/-- JSON whitespace: space, tab, line feed, carriage return. -/
def isJsonWs (c : Char) : Bool :=
  c == ' ' || c == '\t' || c == '\n' || c == '\r'

/-- Longest whitespace prefix dropped. -/
def skipWs : List Char → List Char
  | [] => []
  | c :: cs => if isJsonWs c then skipWs cs else c :: cs

/-- ASCII decimal digit test. -/
def isDigitCh (c : Char) : Bool :=
  '0' ≤ c && c ≤ '9'

/-- Numeric value of a digit list, most significant first. -/
def digitsVal (ds : List Char) : Nat :=
  ds.foldl (fun acc c => 10 * acc + (c.toNat - 48)) 0

/-- Value of one hex digit, if the character is one (digits, then the lower
and upper case letter ranges). -/
def hexVal (c : Char) : Option Nat :=
  let n := c.toNat
  if 48 ≤ n && n ≤ 57 then some (n - 48)
  else if 97 ≤ n && n ≤ 102 then some (n - 87)
  else if 65 ≤ n && n ≤ 70 then some (n - 55)
  else none

/-- Body of a JSON string literal after the opening quote: consumes up to the
closing quote, decoding the escape sequences `JSON.parse` accepts and
refusing raw control characters. Returns the decoded text and the rest. -/
def parseStrBody (acc : List Char) : List Char → Option (String × List Char)
  | [] => none
  | '"' :: rest => some (String.mk acc.reverse, rest)
  | '\\' :: esc => match esc with
    | '"' :: rest => parseStrBody ('"' :: acc) rest
    | '\\' :: rest => parseStrBody ('\\' :: acc) rest
    | '/' :: rest => parseStrBody ('/' :: acc) rest
    | 'b' :: rest => parseStrBody (Char.ofNat 8 :: acc) rest
    | 'f' :: rest => parseStrBody (Char.ofNat 12 :: acc) rest
    | 'n' :: rest => parseStrBody ('\n' :: acc) rest
    | 'r' :: rest => parseStrBody ('\r' :: acc) rest
    | 't' :: rest => parseStrBody ('\t' :: acc) rest
    | 'u' :: h1 :: h2 :: h3 :: h4 :: rest =>
        match hexVal h1, hexVal h2, hexVal h3, hexVal h4 with
        | some a, some b, some c, some d =>
            parseStrBody (Char.ofNat (d + 16 * (c + 16 * (b + 16 * a))) :: acc) rest
        | _, _, _, _ => none
    | _ => none
  | c :: rest => if c.toNat < 32 then none else parseStrBody (c :: acc) rest

/-- Digits of an unsigned JSON integer with the leading-zero rule: either a
single `0` or a nonzero leading digit. -/
def parseIntDigits (l : List Char) : Option (Nat × List Char) :=
  let ds := l.takeWhile isDigitCh
  match ds with
  | [] => none
  | ['0'] => some (0, l.drop 1)
  | '0' :: _ => none
  | _ => some (digitsVal ds, l.drop ds.length)

/-- Leading JSON number (integer part of the grammar): optional minus sign
then digits. -/
def parseNum : List Char → Option (Json × List Char)
  | '-' :: rest =>
      (parseIntDigits rest).map (fun p => (Json.num (-(p.1 : Int)), p.2))
  | l => (parseIntDigits l).map (fun p => (Json.num (p.1 : Int), p.2))

mutual
/-- Leading JSON value of the input (whitespace allowed before it), with the
unconsumed rest. Fuel bounds the nesting recursion. -/
def parseVal : Nat → List Char → Option (Json × List Char)
  | 0, _ => none
  | fuel + 1, l =>
    match skipWs l with
    | '"' :: rest => (parseStrBody [] rest).map (fun p => (Json.str p.1, p.2))
    | '[' :: rest =>
        (match skipWs rest with
         | ']' :: r2 => some (Json.arr [], r2)
         | r1 => parseElems fuel r1 [])
    | '\x7b' :: rest =>
        (match skipWs rest with
         | '\x7d' :: r2 => some (Json.obj [], r2)
         | r1 => parseFields fuel r1 [])
    | 'n' :: 'u' :: 'l' :: 'l' :: rest => some (Json.null, rest)
    | 't' :: 'r' :: 'u' :: 'e' :: rest => some (Json.bool true, rest)
    | 'f' :: 'a' :: 'l' :: 's' :: 'e' :: rest => some (Json.bool false, rest)
    | l2 => parseNum l2

/-- Elements of a nonempty array body: a value, then either a comma and more
elements or the closing bracket. -/
def parseElems : Nat → List Char → List Json → Option (Json × List Char)
  | 0, _, _ => none
  | fuel + 1, l, acc =>
    match parseVal fuel l with
    | none => none
    | some (v, r) =>
      match skipWs r with
      | ',' :: r2 => parseElems fuel r2 (v :: acc)
      | ']' :: r2 => some (Json.arr (v :: acc).reverse, r2)
      | _ => none

/-- Fields of a nonempty object body: a quoted key, a colon, a value, then
either a comma and more fields or the closing brace. -/
def parseFields : Nat → List Char → List (String × Json) → Option (Json × List Char)
  | 0, _, _ => none
  | fuel + 1, l, acc =>
    match skipWs l with
    | '"' :: rest =>
      match parseStrBody [] rest with
      | none => none
      | some (k, r) =>
        match skipWs r with
        | ':' :: r2 =>
          match parseVal fuel r2 with
          | none => none
          | some (v, r3) =>
            match skipWs r3 with
            | ',' :: r4 => parseFields fuel r4 ((k, v) :: acc)
            | '\x7d' :: r4 => some (Json.obj ((k, v) :: acc).reverse, r4)
            | _ => none
        | _ => none
    | _ => none
end

/-- Model of `JSON.parse(s)`: parse one value and require only whitespace
after it; `none` is the thrown `SyntaxError`. -/
def parseJson (s : String) : Option Json :=
  match parseVal (s.data.length + 1) s.data with
  | some (v, rest) => if skipWs rest = [] then some v else none
  | none => none

/-! ### RequestClient (`src/searu-dash/src/lib/api.ts`)

The `req` helper builds `opts = \x7b method, headers: \x7b\x7d, body: '' \x7d`,
adds a `Content-Type` header and a JSON body when `data` is truthy, adds an
`Authorization` header when `token` is truthy, performs the fetch, reads the
response as text and decodes it leniently. The network is an oracle here: the
response text is an extra argument, and the model returns both the outbound
request and the decoded result. -/

/-- Fixed API base address (`const base` in `api.ts`). -/
def apiBase : String := "http://localhost:8000/api"

/-- Outbound HTTP call as `req` hands it to `fetch`: the joined url, the
method, the header object in insertion order, and the body string (left at
the initial empty string when no data is attached). -/
structure OutboundRequest where
  url : String
  method : String
  headers : List (String × String)
  body : String
deriving DecidableEq

/-- Decoded response body: the parsed JSON value when `JSON.parse` succeeds,
or the raw text when it throws (the `catch` branch of `req`). -/
inductive DecodedBody where
  | parsed (j : Json)
  | raw (s : String)

/-- Decode step of `req`: `r.text()` followed by a guarded `JSON.parse`. -/
def reqDecode (s : String) : DecodedBody :=
  match parseJson s with
  | some j => .parsed j
  | none => .raw s

/-- Result of one `req` invocation: what went out and what came back decoded. -/
structure ReqResult where
  outbound : OutboundRequest
  result : DecodedBody

/-- Model of `req(\x7bmethod, path, data, token\x7d)` in `api.ts`, given the
response text the remote answers with. Header insertion order and the JS
truthiness tests on `data` and `token` follow the source. -/
def req (method path : String) (data : Option Json) (token : Option String)
    (responseText : String) : ReqResult :=
  let headers0 : List (String × String) := []
  let headers1 :=
    if (match data with | some d => jsTruthy d | none => false) then
      headers0 ++ [("Content-Type", "application/json")]
    else headers0
  let body :=
    if (match data with | some d => jsTruthy d | none => false) then
      (match data with | some d => jsonStringify d | none => "")
    else ""
  let headers2 :=
    if jsTruthyStr token then
      headers1 ++ [("Authorization", "Token " ++ token.getD "")]
    else headers1
  { outbound := { url := apiBase ++ "/" ++ path, method := method,
                  headers := headers2, body := body },
    result := reqDecode responseText }

/-- Wrapper `get(path, token)`. -/
def apiGet (path token : String) (responseText : String) : ReqResult :=
  req "GET" path none (some token) responseText

/-- Wrapper `del(path, token)`. -/
def apiDel (path token : String) (responseText : String) : ReqResult :=
  req "DELETE" path none (some token) responseText

/-- Wrapper `post(path, data, token?)`. -/
def apiPost (path : String) (data : Json) (token : Option String)
    (responseText : String) : ReqResult :=
  req "POST" path (some data) token responseText

/-- Wrapper `put(path, data, token)`. -/
def apiPut (path : String) (data : Json) (token : String)
    (responseText : String) : ReqResult :=
  req "PUT" path (some data) (some token) responseText

/-! ### LoginFlow (`src/searu-dash/src/routes/users/login.ts`)

The route handler posts the credentials to `users/login` with no token, then
interpolates `body['token']` into the `set-cookie` header. JS property access
with the key `token` yields the field on a parsed object, `undefined` on a
raw string or on a parsed non-object (no `Json` value maps to a string
carrying a `token` property), and throws a `TypeError` on `null`. -/

/-- Outcome of the JS property access `body['token']`. -/
inductive JsIndexResult where
  | value (j : Json)
  | jsUndefined
  | throwTypeError

/-- Model of `body['token']` on the decoded response body. -/
def jsIndexToken : DecodedBody → JsIndexResult
  | .raw _ => .jsUndefined
  | .parsed .null => .throwTypeError
  | .parsed (.obj fields) =>
      match jsonObjGet fields "token" with
      | some v => .value v
      | none => .jsUndefined
  | .parsed _ => .jsUndefined

/-- Response the login route handler returns: the `set-cookie` header value
and the decoded body passed through. -/
structure LoginResponse where
  setCookie : String
  body : DecodedBody

/-- Model of the `post` handler in `routes/users/login.ts`, given the remote
response text: submit the credentials through `apiPost`, then build the
cookie header by template interpolation of `body['token']`. `none` is the
handler itself throwing (the `TypeError` of indexing into `null`). -/
def loginPost (username password : String) (responseText : String) :
    Option LoginResponse :=
  let r := apiPost "users/login"
    (.obj [("username", .str username), ("password", .str password)]) none responseText
  match jsIndexToken r.result with
  | .throwTypeError => none
  | .value v => some { setCookie := "jwt=" ++ jsToString v ++ "; Path=/; HttpOnly",
                       body := r.result }
  | .jsUndefined => some { setCookie := "jwt=undefined; Path=/; HttpOnly",
                           body := r.result }

/-- Outbound call the login handler makes, for stating header properties:
`apiPost` with no token attached. -/
def loginOutbound (username password : String) : OutboundRequest :=
  (apiPost "users/login"
    (.obj [("username", .str username), ("password", .str password)]) none "").outbound

/-! ### Cookie header parsing (the npm `cookie` package's `parse`)

`getSession` calls `cookie.parse(headers.cookie || '')`. The library splits
the header on semicolons, takes each piece with an equals sign, trims the key
and the value, strips a surrounding double quote, and keeps the first
occurrence of each name. Percent-decoding, attempted only when a value
contains a percent sign, is omitted: no input here contains one. -/

/-- Split on semicolons, every separator producing a boundary, as
`String.prototype.split(';')` does (so the empty string yields one empty
piece). -/
def splitSemi : List Char → List (List Char)
  | [] => [[]]
  | c :: cs =>
    if c = ';' then [] :: splitSemi cs
    else
      match splitSemi cs with
      | [] => [[c]]
      | g :: gs => (c :: g) :: gs

/-- Whitespace for `String.prototype.trim` (the characters that occur in
cookie headers). -/
def isTrimWs (c : Char) : Bool :=
  c == ' ' || c == '\t' || c == '\n' || c == '\r'

/-- Both-ends trim of a character list. -/
def trimChars (l : List Char) : List Char :=
  ((l.dropWhile isTrimWs).reverse.dropWhile isTrimWs).reverse

/-- Strip of a leading double quote together with the last character
(`val.slice(1, -1)` guarded by a first-character check). -/
def stripQuotes : List Char → List Char
  | '"' :: rest => rest.dropLast
  | l => l

/-- One `name=value` piece of the cookie header: pieces without an equals
sign are skipped; key and value are trimmed and the value unquoted. -/
def cookiePair (l : List Char) : Option (String × String) :=
  match l.dropWhile (fun c => c ≠ '=') with
  | [] => none
  | _ :: v =>
      some (String.mk (trimChars (l.takeWhile (fun c => c ≠ '='))),
        String.mk (stripQuotes (trimChars v)))

/-- Accumulation of parsed pairs, first occurrence of a name winning
(the library assigns only when the name is still undefined). -/
def cookieInsert (acc : List (String × String)) : Option (String × String) →
    List (String × String)
  | none => acc
  | some (k, v) => if (acc.find? (fun p => p.1 == k)).isSome then acc else acc ++ [(k, v)]

/-- Model of `cookie.parse` over a cookie header string. -/
def cookieParse (s : String) : List (String × String) :=
  (splitSemi s.data).foldl (fun acc piece => cookieInsert acc (cookiePair piece)) []

/-- Lookup of a cookie by name in the parsed mapping. -/
def cookieGet (m : List (String × String)) (k : String) : Option String :=
  (m.find? (fun p => p.1 == k)).map (fun p => p.2)

/-! ### Base64 and UTF-8 (Node's `Buffer.from(v, 'base64').toString('utf-8')`)

Node's Base64 decoder never throws: characters outside the alphabet
(padding included) are skipped, and a trailing group of two or three
sextets still yields its complete bytes while a lone sextet is dropped.
The UTF-8 decoder replaces invalid sequences with U+FFFD. -/

/-- The standard Base64 alphabet. -/
def b64Alphabet : List Char :=
  "ABCDEFGHIJKLMNOPQRSTUVWXYZabcdefghijklmnopqrstuvwxyz0123456789+/".data

/-- Character for a sextet value below 64. -/
def b64Char (n : Nat) : Char := b64Alphabet.getD n 'A'

/-- Sextet value of an alphabet character; `none` for everything else
(padding, whitespace, arbitrary garbage), which the decoder skips. -/
def b64Idx (c : Char) : Option Nat := b64Alphabet.findIdx? (· == c)

/-- Standard Base64 encoding of a byte list, with padding. Used only to state
round-trip properties; the source encodes cookie values outside this layer. -/
def b64Encode : List Nat → List Char
  | [] => []
  | [a] => [b64Char (a / 4), b64Char (a % 4 * 16), '=', '=']
  | [a, b] => [b64Char (a / 4), b64Char (a % 4 * 16 + b / 16), b64Char (b % 16 * 4), '=']
  | a :: b :: c :: rest =>
      b64Char (a / 4) :: b64Char (a % 4 * 16 + b / 16) ::
        b64Char (b % 16 * 4 + c / 64) :: b64Char (c % 64) :: b64Encode rest

/-- Bytes of a sextet list taken four at a time; a trailing pair or triple
yields one or two bytes, a lone sextet nothing. -/
def b64Quads : List Nat → List Nat
  | s1 :: s2 :: s3 :: s4 :: rest =>
      (s1 * 4 + s2 / 16) :: (s2 % 16 * 16 + s3 / 4) :: (s3 % 4 * 64 + s4 % 64)
        :: b64Quads rest
  | [s1, s2, s3] => [s1 * 4 + s2 / 16, s2 % 16 * 16 + s3 / 4]
  | [s1, s2] => [s1 * 4 + s2 / 16]
  | [_] => []
  | [] => []

/-- Model of Node's forgiving Base64 decode: keep the alphabet characters,
map them to sextets, recombine. Total on every string. -/
def b64Decode (s : String) : List Nat :=
  b64Quads (s.data.filterMap b64Idx)

/-- UTF-8 bytes of one character (the standard four-range encoding). -/
def utf8EncodeChar (c : Char) : List Nat :=
  let n := c.toNat
  if n < 128 then [n]
  else if n < 2048 then [192 + n / 64, 128 + n % 64]
  else if n < 65536 then [224 + n / 4096, 128 + n / 64 % 64, 128 + n % 64]
  else [240 + n / 262144, 128 + n / 4096 % 64, 128 + n / 64 % 64, 128 + n % 64]

/-- UTF-8 bytes of a string. -/
def utf8Encode (s : String) : List Nat :=
  s.data.flatMap utf8EncodeChar

/-- Continuation byte test. -/
def isCont (b : Nat) : Bool := 128 ≤ b && b < 192

/-- Scalar-value check: code points are below 0x110000 and never surrogates. -/
def isScalar (n : Nat) : Bool :=
  n < 1114112 && !(55296 ≤ n && n < 57344)

/-- The replacement character U+FFFD. -/
def replChar : Char := Char.ofNat 65533

/-- Character of a two-byte sequence, or U+FFFD for an overlong form. -/
def utf8Char2 (b b1 : Nat) : Char :=
  let n := (b - 192) * 64 + (b1 - 128)
  if 128 ≤ n then Char.ofNat n else replChar

/-- Character of a three-byte sequence, or U+FFFD for an overlong form or a
surrogate. -/
def utf8Char3 (b b1 b2 : Nat) : Char :=
  let n := (b - 224) * 4096 + (b1 - 128) * 64 + (b2 - 128)
  if 2048 ≤ n && isScalar n then Char.ofNat n else replChar

/-- Character of a four-byte sequence, or U+FFFD for an overlong or
out-of-range code point. -/
def utf8Char4 (b b1 b2 b3 : Nat) : Char :=
  let n := (b - 240) * 262144 + (b1 - 128) * 4096 + (b2 - 128) * 64 + (b3 - 128)
  if 65536 ≤ n && n < 1114112 then Char.ofNat n else replChar

/-- Characters decoded from a UTF-8 byte list, as `Buffer.toString('utf-8')`
produces them: well-formed sequences become their code points, anything else
(bad lead byte, missing or bad continuation, overlong form, surrogate,
out-of-range) becomes U+FFFD. Total on every byte list. -/
def utf8DecodeChars : List Nat → List Char
  | [] => []
  | b :: rest =>
    if b < 128 then Char.ofNat b :: utf8DecodeChars rest
    else if b < 192 then replChar :: utf8DecodeChars rest
    else if b < 224 then
      match rest with
      | b1 :: rest1 =>
        if isCont b1 then utf8Char2 b b1 :: utf8DecodeChars rest1
        else replChar :: utf8DecodeChars (b1 :: rest1)
      | [] => [replChar]
    else if b < 240 then
      match rest with
      | b1 :: b2 :: rest2 =>
        if isCont b1 && isCont b2 then utf8Char3 b b1 b2 :: utf8DecodeChars rest2
        else replChar :: utf8DecodeChars (b1 :: b2 :: rest2)
      | _ => [replChar]
    else
      match rest with
      | b1 :: b2 :: b3 :: rest3 =>
        if b < 248 && isCont b1 && isCont b2 && isCont b3 then
          utf8Char4 b b1 b2 b3 :: utf8DecodeChars rest3
        else replChar :: utf8DecodeChars (b1 :: b2 :: b3 :: rest3)
      | _ => [replChar]

/-- String decoded from a UTF-8 byte list. -/
def utf8Decode (bs : List Nat) : String := String.mk (utf8DecodeChars bs)

/-! ### SessionCodec (`getSession` in the SvelteKit hooks module) -/

/-- Inbound request headers as the hook sees them: only the cookie header
matters; `none` is an absent header (`headers.cookie` undefined). -/
structure Headers where
  cookie : Option String

/-- Session value the hook returns. `none` models `jwt` being `undefined`
(no `jwt` cookie); `some ""` models the short-circuited empty string the
`&&` returns when the cookie value is empty. -/
structure Session where
  jwt : Option String
deriving DecidableEq

/-- Model of `getSession(\x7b headers \x7d)`: parse `headers.cookie || ''`,
then `cookies.jwt && Buffer.from(cookies.jwt, 'base64').toString('utf-8')`.
An absent cookie gives an undefined `jwt`; an empty cookie value is falsy, so
the conjunction returns it undecoded; otherwise the value is Base64-decoded
and the bytes read as UTF-8. -/
def getSession (h : Headers) : Session :=
  let cookies := cookieParse (h.cookie.getD "")
  match cookieGet cookies "jwt" with
  | none => { jwt := none }
  | some v => if v = "" then { jwt := some "" }
              else { jwt := some (utf8Decode (b64Decode v)) }

/-! ## Supporting lemmas -/

/-- Every sextet character lies in the alphabet (out-of-range indices default
to the first letter). -/
theorem b64Char_mem (n : Nat) : b64Char n ∈ b64Alphabet := by
  by_cases h : n < 64
  · have key : ∀ m, m < 64 → b64Char m ∈ b64Alphabet := by decide
    exact key n h
  · unfold b64Char
    rw [List.getD_eq_default]
    · decide
    · have : b64Alphabet.length = 64 := by decide
      omega

/-- The decoder reads back the sextet an alphabet character encodes. -/
theorem b64Idx_b64Char : ∀ n, n < 64 → b64Idx (b64Char n) = some n := by decide

/-- Padding is skipped by the decoder. -/
theorem b64Idx_pad : b64Idx '=' = none := by decide

/-- Characters of a Base64 encoding: alphabet members or padding. -/
theorem b64Encode_mem (bs : List Nat) (c : Char) (hc : c ∈ b64Encode bs) :
    c ∈ b64Alphabet ∨ c = '=' := by
  induction bs using b64Encode.induct with
  | case1 => simp [b64Encode] at hc
  | case2 a =>
      simp only [b64Encode, List.mem_cons, List.not_mem_nil, or_false] at hc
      rcases hc with rfl | rfl | rfl | rfl
      · exact Or.inl (b64Char_mem _)
      · exact Or.inl (b64Char_mem _)
      · exact Or.inr rfl
      · exact Or.inr rfl
  | case3 a b =>
      simp only [b64Encode, List.mem_cons, List.not_mem_nil, or_false] at hc
      rcases hc with rfl | rfl | rfl | rfl
      · exact Or.inl (b64Char_mem _)
      · exact Or.inl (b64Char_mem _)
      · exact Or.inl (b64Char_mem _)
      · exact Or.inr rfl
  | case4 a b c rest ih =>
      simp only [b64Encode, List.mem_cons] at hc
      rcases hc with rfl | rfl | rfl | rfl | hmem
      · exact Or.inl (b64Char_mem _)
      · exact Or.inl (b64Char_mem _)
      · exact Or.inl (b64Char_mem _)
      · exact Or.inl (b64Char_mem _)
      · exact ih hmem

/-- Round trip of the Base64 codec: the forgiving decode recovers exactly the
bytes that were encoded, paddings dropped along the way. -/
theorem b64_roundtrip : ∀ bs : List Nat, (∀ b ∈ bs, b < 256) →
    b64Quads ((b64Encode bs).filterMap b64Idx) = bs := by
  intro bs h
  induction bs using b64Encode.induct with
  | case1 => rfl
  | case2 a =>
      have ha : a < 256 := h a (by simp)
      have h1 : a / 4 < 64 := by omega
      have h2 : a % 4 * 16 < 64 := by omega
      simp only [b64Encode, List.filterMap_cons, b64Idx_b64Char _ h1, b64Idx_b64Char _ h2,
        b64Idx_pad, List.filterMap_nil]
      simp only [b64Quads]
      have : a / 4 * 4 + a % 4 * 16 / 16 = a := by omega
      rw [this]
  | case3 a b =>
      have ha : a < 256 := h a (by simp)
      have hb : b < 256 := h b (by simp)
      have h1 : a / 4 < 64 := by omega
      have h2 : a % 4 * 16 + b / 16 < 64 := by omega
      have h3 : b % 16 * 4 < 64 := by omega
      simp only [b64Encode, List.filterMap_cons, b64Idx_b64Char _ h1, b64Idx_b64Char _ h2,
        b64Idx_b64Char _ h3, b64Idx_pad, List.filterMap_nil]
      simp only [b64Quads]
      have e1 : a / 4 * 4 + (a % 4 * 16 + b / 16) / 16 = a := by omega
      have e2 : (a % 4 * 16 + b / 16) % 16 * 16 + b % 16 * 4 / 4 = b := by omega
      rw [e1, e2]
  | case4 a b c rest ih =>
      have ha : a < 256 := h a (by simp)
      have hb : b < 256 := h b (by simp)
      have hc : c < 256 := h c (by simp)
      have h1 : a / 4 < 64 := by omega
      have h2 : a % 4 * 16 + b / 16 < 64 := by omega
      have h3 : b % 16 * 4 + c / 64 < 64 := by omega
      have h4 : c % 64 < 64 := by omega
      simp only [b64Encode, List.filterMap_cons, b64Idx_b64Char _ h1, b64Idx_b64Char _ h2,
        b64Idx_b64Char _ h3, b64Idx_b64Char _ h4]
      simp only [b64Quads]
      have e1 : a / 4 * 4 + (a % 4 * 16 + b / 16) / 16 = a := by omega
      have e2 : (a % 4 * 16 + b / 16) % 16 * 16 + (b % 16 * 4 + c / 64) / 4 = b := by omega
      have e3 : (b % 16 * 4 + c / 64) % 4 * 64 + c % 64 % 64 = c := by omega
      rw [e1, e2, e3, ih (fun x hx => h x (by simp [hx]))]

/-- An encoding is empty exactly when there was nothing to encode. -/
theorem b64Encode_eq_nil (bs : List Nat) (h : b64Encode bs = []) : bs = [] := by
  match bs with
  | [] => rfl
  | [a] => simp [b64Encode] at h
  | [a, b] => simp [b64Encode] at h
  | a :: b :: c :: rest => simp [b64Encode] at h

/-- ASCII characters encode to their single code-point byte. -/
theorem utf8EncodeChar_ascii (c : Char) (h : c.toNat < 128) :
    utf8EncodeChar c = [c.toNat] := by
  simp [utf8EncodeChar, h]

/-- UTF-8 encoding of an ASCII character list is the list of code points. -/
theorem utf8Encode_ascii_chars (l : List Char) (h : ∀ c ∈ l, c.toNat < 128) :
    l.flatMap utf8EncodeChar = l.map Char.toNat := by
  induction l with
  | nil => rfl
  | cons c cs ih =>
      rw [List.flatMap_cons, List.map_cons, utf8EncodeChar_ascii c (h c (by simp)),
        ih (fun x hx => h x (by simp [hx]))]
      rfl

/-- One unfolding of the decoder at a cons cell, stated as the body of the
definition (the recursion is structural, so this is definitional). -/
theorem utf8DecodeChars_cons (b : Nat) (rest : List Nat) :
    utf8DecodeChars (b :: rest) =
      (if b < 128 then Char.ofNat b :: utf8DecodeChars rest
       else if b < 192 then replChar :: utf8DecodeChars rest
       else if b < 224 then
         match rest with
         | b1 :: rest1 =>
           if isCont b1 then utf8Char2 b b1 :: utf8DecodeChars rest1
           else replChar :: utf8DecodeChars (b1 :: rest1)
         | [] => [replChar]
       else if b < 240 then
         match rest with
         | b1 :: b2 :: rest2 =>
           if isCont b1 && isCont b2 then utf8Char3 b b1 b2 :: utf8DecodeChars rest2
           else replChar :: utf8DecodeChars (b1 :: b2 :: rest2)
         | _ => [replChar]
       else
         match rest with
         | b1 :: b2 :: b3 :: rest3 =>
           if b < 248 && isCont b1 && isCont b2 && isCont b3 then
             utf8Char4 b b1 b2 b3 :: utf8DecodeChars rest3
           else replChar :: utf8DecodeChars (b1 :: b2 :: b3 :: rest3)
         | _ => [replChar]) := by
  match rest with
  | [] => rfl
  | [b1] => rfl
  | [b1, b2] => rfl
  | b1 :: b2 :: b3 :: r => rfl

/-- UTF-8 decoding of ASCII code points recovers the characters. -/
theorem utf8DecodeChars_ascii (l : List Char) (h : ∀ c ∈ l, c.toNat < 128) :
    utf8DecodeChars (l.map Char.toNat) = l := by
  induction l with
  | nil => rfl
  | cons c cs ih =>
      have hc : c.toNat < 128 := h c (by simp)
      rw [List.map_cons, utf8DecodeChars_cons, if_pos hc, Char.ofNat_toNat,
        ih (fun x hx => h x (by simp [hx]))]

/-- Splitting at semicolons leaves a semicolon-free list in one piece. -/
theorem splitSemi_no_semi (l : List Char) (h : ∀ c ∈ l, c ≠ ';') :
    splitSemi l = [l] := by
  induction l with
  | nil => rfl
  | cons c cs ih =>
      have hc : c ≠ ';' := h c (by simp)
      simp only [splitSemi, if_neg hc, ih (fun x hx => h x (by simp [hx]))]

/-- Dropping under a predicate no element satisfies drops nothing. -/
theorem dropWhile_eq_self_of (p : Char → Bool) (l : List Char)
    (h : ∀ c ∈ l, ¬p c) : l.dropWhile p = l := by
  cases l with
  | nil => rfl
  | cons c cs => simp [List.dropWhile_cons, h c (by simp)]

/-- Trimming a whitespace-free list changes nothing. -/
theorem trimChars_eq_self (l : List Char) (h : ∀ c ∈ l, ¬isTrimWs c) :
    trimChars l = l := by
  unfold trimChars
  rw [dropWhile_eq_self_of _ _ h, dropWhile_eq_self_of, List.reverse_reverse]
  intro c hc
  exact h c (by simpa using hc)

/-- Unquoting a list that does not start with a double quote changes nothing. -/
theorem stripQuotes_eq_self (l : List Char) (h : ∀ c ∈ l, c ≠ '"') :
    stripQuotes l = l := by
  cases l with
  | nil => rfl
  | cons c cs =>
      have hc : c ≠ '"' := h c (by simp)
      rw [stripQuotes.eq_def]
      split
      · next heq => simp_all
      · rfl

/-- Parse of a cookie header holding exactly one `jwt` pair with a tame value
(no semicolons, no whitespace, no leading quote): the value comes back raw. -/
theorem cookieParse_jwt (v : List Char)
    (hsemi : ∀ c ∈ v, c ≠ ';') (hws : ∀ c ∈ v, ¬isTrimWs c)
    (hq : ∀ c ∈ v, c ≠ '"') :
    cookieGet (cookieParse ("jwt=" ++ String.mk v)) "jwt" = some (String.mk v) := by
  have hdata : ("jwt=" ++ String.mk v).data = 'j' :: 'w' :: 't' :: '=' :: v := by
    rw [String.data_append]
    rfl
  have hall : ∀ c ∈ ('j' :: 'w' :: 't' :: '=' :: v), c ≠ ';' := by
    intro c hc
    simp only [List.mem_cons] at hc
    rcases hc with rfl | rfl | rfl | rfl | hmem
    · decide
    · decide
    · decide
    · decide
    · exact hsemi c hmem
  have hpair : cookiePair ('j' :: 'w' :: 't' :: '=' :: v) = some ("jwt", String.mk v) := by
    have hd : ('j' :: 'w' :: 't' :: '=' :: v).dropWhile (fun c => c ≠ '=') = '=' :: v := by
      simp [List.dropWhile_cons]
    have ht : ('j' :: 'w' :: 't' :: '=' :: v).takeWhile (fun c => c ≠ '=') = ['j', 'w', 't'] := by
      simp [List.takeWhile_cons]
    unfold cookiePair
    rw [hd, ht]
    show some (String.mk (trimChars ['j', 'w', 't']), String.mk (stripQuotes (trimChars v))) =
      some ("jwt", String.mk v)
    rw [trimChars_eq_self v hws, stripQuotes_eq_self v hq]
    rfl
  unfold cookieParse
  rw [hdata, splitSemi_no_semi _ hall]
  simp only [List.foldl_cons, List.foldl_nil, hpair]
  simp [cookieInsert, cookieGet]

/-! ## Claims -/

/-- C1: for every HTTP response, `request` reads the body as text and then
attempts a JSON parse: a successful parse returns the parsed value, a failed
parse returns the raw text unchanged, and the decode never throws (the model
is a total function into `DecodedBody`). -/
theorem request_lenient_decode (method path : String) (data : Option Json)
    (token : Option String) (s : String) :
    (∀ j, parseJson s = some j → (req method path data token s).result = .parsed j) ∧
    (parseJson s = none → (req method path data token s).result = .raw s) := by
  constructor
  · intro j hj
    show reqDecode s = _
    unfold reqDecode
    rw [hj]
  · intro hn
    show reqDecode s = _
    unfold reqDecode
    rw [hn]

theorem request_lenient_decode_witness :
    (req "GET" "orders" none none "[1]").result = DecodedBody.parsed (Json.arr [Json.num 1]) ∧
    (req "GET" "orders" none none "nope").result = DecodedBody.raw "nope" :=
  ⟨(request_lenient_decode "GET" "orders" none none "[1]").1 _ rfl,
   (request_lenient_decode "GET" "orders" none none "nope").2 rfl⟩

/-- C2: the login handler submits the credentials with an unauthenticated
POST to `users/login`, and when the decoded response carries a string `token`
field with value `t`, the emitted `set-cookie` header is exactly
`jwt=<t>; Path=/; HttpOnly` with `t` written raw. -/
theorem login_raw_token_cookie (u p s t : String)
    (h : jsIndexToken (reqDecode s) = JsIndexResult.value (Json.str t)) :
    loginPost u p s = some { setCookie := "jwt=" ++ t ++ "; Path=/; HttpOnly",
                             body := reqDecode s } ∧
    (loginOutbound u p).method = "POST" ∧
    (loginOutbound u p).url = apiBase ++ "/users/login" ∧
    (∀ v, ("Authorization", v) ∉ (loginOutbound u p).headers) := by
  have hr : (apiPost "users/login"
      (Json.obj [("username", Json.str u), ("password", Json.str p)]) none s).result =
      reqDecode s := rfl
  refine ⟨?_, rfl, rfl, ?_⟩
  · simp only [loginPost]
    rw [hr, h]
    rfl
  · intro v hv
    have hh : (loginOutbound u p).headers = [("Content-Type", "application/json")] := rfl
    rw [hh] at hv
    simp at hv

theorem login_raw_token_cookie_witness :
    loginPost "alice" "secret" "\x7b\"token\":\"abc123\"\x7d" =
      some { setCookie := "jwt=abc123; Path=/; HttpOnly",
             body := reqDecode "\x7b\"token\":\"abc123\"\x7d" } ∧
    (loginOutbound "alice" "secret").method = "POST" ∧
    (loginOutbound "alice" "secret").url = apiBase ++ "/users/login" ∧
    (∀ v, ("Authorization", v) ∉ (loginOutbound "alice" "secret").headers) :=
  login_raw_token_cookie "alice" "secret" "\x7b\"token\":\"abc123\"\x7d" "abc123" rfl

/-- C3: for every printable-ASCII token `t`, deriving the session from a
`Cookie` header equal to `jwt=<Base64(t)>` recovers `t`: the cookie value is
Base64-decoded and the bytes read back as UTF-8. -/
theorem deriveSession_base64_roundtrip (t : String)
    (h : ∀ c ∈ t.data, 32 ≤ c.toNat ∧ c.toNat ≤ 126) :
    getSession { cookie := some ("jwt=" ++ String.mk (b64Encode (utf8Encode t))) } =
      { jwt := some t } := by
  have hascii : ∀ c ∈ t.data, c.toNat < 128 := by
    intro c hc
    have := h c hc
    omega
  have henc : utf8Encode t = t.data.map Char.toNat := by
    unfold utf8Encode
    exact utf8Encode_ascii_chars t.data hascii
  have hbytes : ∀ b ∈ utf8Encode t, b < 256 := by
    rw [henc]
    intro b hb
    obtain ⟨c, hc, rfl⟩ := List.mem_map.mp hb
    have := hascii c hc
    omega
  have hgood : ∀ c ∈ b64Alphabet, c ≠ ';' ∧ ¬isTrimWs c ∧ c ≠ '"' := by decide
  have hsplit : ∀ c ∈ b64Encode (utf8Encode t), c ≠ ';' ∧ ¬isTrimWs c ∧ c ≠ '"' := by
    intro c hc
    rcases b64Encode_mem _ c hc with hmem | rfl
    · exact hgood c hmem
    · refine ⟨by decide, by decide, by decide⟩
  have hget := cookieParse_jwt (b64Encode (utf8Encode t))
    (fun c hc => (hsplit c hc).1) (fun c hc => (hsplit c hc).2.1)
    (fun c hc => (hsplit c hc).2.2)
  simp only [getSession, Option.getD_some]
  rw [hget]
  by_cases hv : String.mk (b64Encode (utf8Encode t)) = ""
  · have hnil : b64Encode (utf8Encode t) = [] := congrArg String.data hv
    have hlist : t.data.map Char.toNat = [] := by
      rw [← henc]
      exact b64Encode_eq_nil _ hnil
    have ht : t = "" := String.ext (List.map_eq_nil_iff.mp hlist)
    rw [hv, ht]
    rfl
  · show (if String.mk (b64Encode (utf8Encode t)) = "" then ({ jwt := some "" } : Session)
        else { jwt := some (utf8Decode (b64Decode (String.mk (b64Encode (utf8Encode t))))) }) =
        { jwt := some t }
    rw [if_neg hv]
    have hdec : b64Decode (String.mk (b64Encode (utf8Encode t))) = utf8Encode t := by
      unfold b64Decode
      exact b64_roundtrip (utf8Encode t) hbytes
    rw [hdec, henc]
    unfold utf8Decode
    rw [utf8DecodeChars_ascii t.data hascii]

theorem deriveSession_base64_roundtrip_witness :
    getSession { cookie := some "jwt=YWJjMTIz" } = { jwt := some "abc123" } :=
  deriveSession_base64_roundtrip "abc123" (by decide)

/-- C4: when the remote login response body is non-JSON text, the decoded
body is that raw string, the `token` lookup yields `undefined`, and the
emitted cookie header is exactly `jwt=undefined; Path=/; HttpOnly`. -/
theorem login_nonjson_undefined_cookie (u p s : String) (h : parseJson s = none) :
    reqDecode s = DecodedBody.raw s ∧
    jsIndexToken (reqDecode s) = JsIndexResult.jsUndefined ∧
    loginPost u p s = some { setCookie := "jwt=undefined; Path=/; HttpOnly",
                             body := DecodedBody.raw s } := by
  have h1 : reqDecode s = .raw s := by
    unfold reqDecode
    rw [h]
  have h2 : jsIndexToken (reqDecode s) = .jsUndefined := by
    rw [h1]
    rfl
  have hr : (apiPost "users/login"
      (Json.obj [("username", Json.str u), ("password", Json.str p)]) none s).result =
      reqDecode s := rfl
  refine ⟨h1, h2, ?_⟩
  simp only [loginPost]
  rw [hr, h2, h1]

theorem login_nonjson_undefined_cookie_witness :
    reqDecode "Internal Server Error" = DecodedBody.raw "Internal Server Error" ∧
    jsIndexToken (reqDecode "Internal Server Error") = JsIndexResult.jsUndefined ∧
    loginPost "alice" "secret" "Internal Server Error" =
      some { setCookie := "jwt=undefined; Path=/; HttpOnly",
             body := DecodedBody.raw "Internal Server Error" } :=
  login_nonjson_undefined_cookie "alice" "secret" "Internal Server Error" rfl

/-- C5 (amended): for every data value that is truthy in the JS sense, the
outbound body is the JSON serialization of the data and the `Content-Type`
header is `application/json`. The original claim quantified over every
JSON-serializable value; `request_data_serialization_counterexample` shows a
falsy value (the empty string) is sent with no body and no `Content-Type`. -/
theorem request_truthy_data_serialized (method path : String) (d : Json)
    (token : Option String) (s : String) (h : jsTruthy d = true) :
    (req method path (some d) token s).outbound.body = jsonStringify d ∧
    ("Content-Type", "application/json") ∈
      (req method path (some d) token s).outbound.headers := by
  by_cases htok : jsTruthyStr token = true <;> simp [req, h, htok]

theorem request_truthy_data_serialized_witness :
    (req "POST" "articles" (some (Json.obj [("title", Json.str "hi")])) none "").outbound.body =
      jsonStringify (Json.obj [("title", Json.str "hi")]) ∧
    ("Content-Type", "application/json") ∈
      (req "POST" "articles" (some (Json.obj [("title", Json.str "hi")])) none
        "").outbound.headers :=
  request_truthy_data_serialized "POST" "articles" (Json.obj [("title", Json.str "hi")])
    none "" rfl

/-- C5 counterexample: the empty string is JSON-serializable (its
serialization is a quoted empty string), yet passing it as `data` attaches
neither the serialized body nor a `Content-Type` header, because `if (data)`
tests JS truthiness rather than presence. -/
theorem request_data_serialization_counterexample :
    ¬ ((req "POST" "articles" (some (Json.str "")) none "").outbound.body =
         jsonStringify (Json.str "") ∧
       ("Content-Type", "application/json") ∈
         (req "POST" "articles" (some (Json.str "")) none "").outbound.headers) := by
  intro hcl
  have hh : (req "POST" "articles" (some (Json.str "")) none "").outbound.headers = [] := rfl
  rw [hh] at hcl
  exact List.not_mem_nil _ hcl.2

/-- C6 (amended): for every nonempty token string, the outbound
`Authorization` header is exactly `Token <t>`. The original claim quantified
over every token string; `request_auth_header_counterexample` shows the empty
token attaches no `Authorization` header, because `if (token)` tests JS
truthiness. -/
theorem request_nonempty_token_auth (method path : String) (data : Option Json)
    (t : String) (s : String) (h : t ≠ "") :
    ("Authorization", "Token " ++ t) ∈
      (req method path data (some t) s).outbound.headers := by
  have htok : jsTruthyStr (some t) = true := by simp [jsTruthyStr, h]
  by_cases hd : (match data with | some d => jsTruthy d | none => false) = true <;>
    simp [req, htok, hd]

theorem request_nonempty_token_auth_witness :
    ("Authorization", "Token " ++ "tok") ∈
      (req "GET" "orders" none (some "tok") "").outbound.headers :=
  request_nonempty_token_auth "GET" "orders" none "tok" "" (by decide)

/-- C6 counterexample: with the empty string as token, the claim's
`Authorization: Token <t>` header (here `Token ` with empty token) is not
attached at all. -/
theorem request_auth_header_counterexample :
    ¬ (("Authorization", "Token " ++ "") ∈
        (req "GET" "orders" none (some "") "").outbound.headers) := by
  intro hcl
  have hh : (req "GET" "orders" none (some "") "").outbound.headers = [] := rfl
  rw [hh] at hcl
  exact List.not_mem_nil _ hcl

/-- C7: with both data and token absent, the call goes out with the body
left at the initial empty string and a header object containing neither
`Content-Type` nor `Authorization`. -/
theorem request_bare_when_absent (method path s : String) :
    (req method path none none s).outbound.body = "" ∧
    (∀ v, ("Content-Type", v) ∉ (req method path none none s).outbound.headers) ∧
    (∀ v, ("Authorization", v) ∉ (req method path none none s).outbound.headers) := by
  have hh : (req method path none none s).outbound.headers = [] := rfl
  refine ⟨rfl, ?_, ?_⟩ <;> intro v <;> rw [hh] <;> exact List.not_mem_nil _

theorem request_bare_when_absent_witness :
    (req "GET" "orders" none none "").outbound.body = "" ∧
    ("Content-Type", "application/json") ∉ (req "GET" "orders" none none "").outbound.headers ∧
    ("Authorization", "Token tok") ∉ (req "GET" "orders" none none "").outbound.headers :=
  ⟨(request_bare_when_absent "GET" "orders" "").1,
   (request_bare_when_absent "GET" "orders" "").2.1 "application/json",
   (request_bare_when_absent "GET" "orders" "").2.2 "Token tok"⟩

/-- C8: a headers object with no `Cookie` header derives the anonymous
session: the `jwt` field is absent, not an error. -/
theorem deriveSession_absent_cookie : getSession { cookie := none } = { jwt := none } := by
  decide

/-- C9: the decode fallback is terminal: when the response text is not valid
JSON the decode rule returns the raw text unchanged, and feeding the string
carried by that result back through the same rule returns it unchanged
again. -/
theorem decode_fallback_terminal (s : String) (h : parseJson s = none) :
    reqDecode s = DecodedBody.raw s ∧
    ∀ s2, reqDecode s = DecodedBody.raw s2 → reqDecode s2 = DecodedBody.raw s2 := by
  have h1 : reqDecode s = .raw s := by
    unfold reqDecode
    rw [h]
  refine ⟨h1, fun s2 h2 => ?_⟩
  rw [h1] at h2
  injection h2 with he
  rw [← he]
  exact h1

theorem decode_fallback_terminal_witness :
    reqDecode "Bad Gateway" = DecodedBody.raw "Bad Gateway" :=
  (decode_fallback_terminal "Bad Gateway" rfl).1

/-- C10: `getSession` is total over its interface: every headers object
(cookie absent, malformed cookie syntax, or a `jwt` value that is not valid
Base64) yields a session value along the always-defined pipeline, never a
failure; a `jwt` cookie with an empty value short-circuits to the empty
string without decoding, and garbage Base64 decodes (forgivingly) rather
than throwing. -/
theorem getSession_total_never_throws :
    (∀ c : Option String, getSession { cookie := c } =
      { jwt := (cookieGet (cookieParse (c.getD "")) "jwt").map
          (fun v => if v = "" then "" else utf8Decode (b64Decode v)) }) ∧
    getSession { cookie := some "jwt=" } = { jwt := some "" } ∧
    getSession { cookie := some "jwt=!!!" } = { jwt := some "" } ∧
    getSession { cookie := some "jwt=YQ" } = { jwt := some "a" } ∧
    getSession { cookie := some "no cookie syntax here" } = { jwt := none } := by
  refine ⟨?_, by decide, by decide, by decide, by decide⟩
  intro c
  simp only [getSession]
  cases hg : cookieGet (cookieParse (c.getD "")) "jwt" with
  | none => simp [hg]
  | some v =>
      by_cases hv : v = "" <;> simp [hg, hv]

end Searu

